import Mathlib

/-!
Verification development for the chunked byte-range streaming engine of
`app.py` (a single-file web application that registers file references and
streams byte windows of local or remote files).

The server side (`/stream` route with its `gen_local` and `generate`
generators) and the client side (the `fetchChunk` loop of the preview page)
are embedded as executable Lean functions.  Bytes are modelled as natural
numbers; files are lists of bytes.  The client-side text of a chunk is
modelled as a list of characters, with decoding treated as the identity
(sound for single-byte text, which is the regime in which byte offsets and
character offsets agree, as the client code assumes).
-/

namespace WebApp

/-- `DEFAULT_BYTES = 1024 * 1024` from the configuration block of `app.py`. -/
def DEFAULT_BYTES : Nat := 1024 * 1024

/-- The fixed read increment `64*1024` used by both stream generators. -/
def CHUNK : Nat := 64 * 1024

/-! ## Server side: the `/stream` route -/

/-- One row of the `files` table, as returned by `get_file_record`. -/
structure FileRecord where
  name : String
  url : String
  storage : String
deriving DecidableEq

/-- An HTTP response from a remote origin, as seen through `requests.get`. -/
structure HttpResp where
  status : Nat
  body : List Nat
  contentType : Option String
  acceptRanges : Option String
  contentRange : Option String
deriving DecidableEq

/-- The environment a `/stream` request runs against: the record store,
the server's local filesystem (`os.path.exists` plus file contents), and
the network (`requests.get` with a `Range: bytes=start-end` header;
`none` models a `requests.RequestException`). -/
structure Ctx where
  records : String → Option FileRecord
  localFs : String → Option (List Nat)
  http : String → Int → Int → Option HttpResp

/-- The query string of a `/stream` request.  For `start` and `bytes`,
`none` means the parameter is absent, `some none` means it is present but
`int()` raises `ValueError`, and `some (some k)` means it parses to `k`. -/
structure StreamArgs where
  idArg : Option String
  startRaw : Option (Option Int)
  bytesRaw : Option (Option Int)
deriving DecidableEq

/-- The body of a `/stream` response: a streamed sequence of byte chunks
(the generator paths), a raw byte body (the upstream error pass-through),
a plain error message, or a body stream aborted by an exception raised
inside the generator (negative seek). -/
inductive StreamBody
  | streamed (chunks : List (List Nat))
  | raw (bytes : List Nat)
  | msg (s : String)
  | aborted
deriving DecidableEq

/-- A `/stream` HTTP response. -/
structure StreamResponse where
  status : Nat
  body : StreamBody
  contentType : Option String := none
  acceptRanges : Option String := none
  contentRange : Option String := none
deriving DecidableEq

/-- The loop body of `gen_local`: starting at file offset `p` with
`remaining = r`, repeatedly `fh.read(min(64*1024, remaining))` and yield the
chunk until the read returns empty or `remaining` reaches zero.  The `fuel`
argument makes the recursion structural; every iteration consumes at least
one byte of `remaining`, so `fuel = r` suffices and the translation is
exact (see `localChunksFuel_sound`). -/
def localChunksFuel (file : List Nat) : Nat → Nat → Nat → List (List Nat)
  | 0, _, _ => []
  | fuel + 1, p, r =>
    if r = 0 then []
    else if ((file.drop p).take (min CHUNK r)).isEmpty then []
    else
      (file.drop p).take (min CHUNK r) ::
        localChunksFuel file fuel
          (p + ((file.drop p).take (min CHUNK r)).length)
          (r - ((file.drop p).take (min CHUNK r)).length)

/-- `gen_local` from the local branch of `/stream`: seek to `start`
(non-negative) and read `nb` bytes in increments of at most 64 KiB. -/
def gen_local (file : List Nat) (start nb : Nat) : List (List Nat) :=
  localChunksFuel file nb start nb

/-- The chunking performed by `r.iter_content(chunk_size=64*1024)` inside
the remote generator `generate`: the upstream body split into pieces of at
most 64 KiB (empty chunks are skipped, matching the `if not chunk: continue`
guard).  Fueled by the body length, which suffices. -/
def chunksOfFuel : Nat → List Nat → List (List Nat)
  | 0, _ => []
  | fuel + 1, l =>
    if l.isEmpty then []
    else l.take CHUNK :: chunksOfFuel fuel (l.drop CHUNK)

/-- The full chunk sequence produced by the `generate` generator for a
given upstream body. -/
def iterContent (l : List Nat) : List (List Nat) :=
  chunksOfFuel l.length l

/-- The `Content-Range` header value built by the f-string
`f'bytes {start}-{end}/*'`. -/
def contentRangeStr (start endIdx : Int) : String :=
  s!"bytes {start}-{endIdx}/*"

/-- The value of `start` after `int(request.args.get('start', '0'))`
succeeds: the parsed integer, or `0` when the parameter is absent. -/
def streamStart (a : StreamArgs) : Int :=
  match a.startRaw with
  | some (some k) => k
  | _ => 0

/-- The value of `nb` after the `bytes` parameter is processed: the parsed
integer when it is positive, and `DEFAULT_BYTES` when the parameter is
absent, fails to parse, or is not positive. -/
def streamNb (a : StreamArgs) : Nat :=
  match a.bytesRaw with
  | some (some k) => if k ≤ 0 then DEFAULT_BYTES else k.toNat
  | _ => DEFAULT_BYTES

/-- The `/stream` route handler (`stream` in `app.py`), translated
branch-for-branch.  (`str.startswith` is modelled by a character-prefix
test on the string's characters.) -/
def stream (ctx : Ctx) (a : StreamArgs) : StreamResponse :=
  match a.idArg with
  | none => { status := 400, body := .msg "id required" }
  | some fid =>
    match ctx.records fid with
    | none => { status := 404, body := .msg "not found" }
    | some rec =>
      match a.startRaw with
      | some none => { status := 400, body := .msg "invalid start" }
      | _ =>
        let start : Int := streamStart a
        let nb : Nat := streamNb a
        let endIdx : Int := start + (nb : Int) - 1
        if rec.storage = "local" then
          match ctx.localFs rec.url with
          | none => { status := 404, body := .msg "local file missing" }
          | some file =>
            { status := 200,
              body := if start < 0 then .aborted
                      else .streamed (gen_local file start.toNat nb),
              contentType := some "application/octet-stream",
              acceptRanges := some "bytes",
              contentRange := some (contentRangeStr start endIdx) }
        else
          if "file://".data.isPrefixOf rec.url.data || (ctx.localFs rec.url).isSome then
            { status := 400, body := .msg "local file not available as remote" }
          else
            match ctx.http rec.url start endIdx with
            | none => { status := 502, body := .msg "fetch error" }
            | some r =>
              if r.status ≠ 200 ∧ r.status ≠ 206 then
                { status := r.status, body := .raw r.body,
                  contentType := some (r.contentType.getD "application/octet-stream") }
              else
                { status := 200, body := .streamed (iterContent r.body),
                  contentType := some (r.contentType.getD "application/octet-stream"),
                  acceptRanges := some (r.acceptRanges.getD "bytes"),
                  contentRange := some (r.contentRange.getD (contentRangeStr start endIdx)) }

/-- The byte content of a response body, when it has one: streamed chunks
are concatenated; error-message and aborted bodies carry no byte content. -/
def bodyBytes : StreamBody → Option (List Nat)
  | .streamed cs => some cs.flatten
  | .raw bs => some bs
  | _ => none

/-! ## Client side: the `fetchChunk` loop of the preview page -/

/-- `OVERLAP = 1024` from the preview page script. -/
def OVERLAP : Nat := 1024

/-- The line terminator scanned for by `slice.lastIndexOf` in the client. -/
def nlChar : Char := Char.ofNat 10

/-- The client-side state of one preview view: `pos`, `done`, `loading`
and the visible buffer `v.innerText`. -/
structure Cursor where
  pos : Nat := 0
  done : Bool := false
  loading : Bool := false
  buffer : List Char := []
deriving DecidableEq

/-- The fresh state created when the preview page loads. -/
def initCursor : Cursor := {}

/-- The index of the last line terminator in a chunk of text, mirroring
`slice.lastIndexOf(newline)` (`none` for the JavaScript result `-1`). -/
def lastNLIdx : List Char → Option Nat
  | [] => none
  | c :: cs =>
    match lastNLIdx cs with
    | some i => some (i + 1)
    | none => if c = nlChar then some 0 else none

/-- `lastNL >= 0 ? slice.substring(0, lastNL+1) : slice`: the part of a
decoded slice the client appends to the visible buffer. -/
def keepPart (slice : List Char) : List Char :=
  match lastNLIdx slice with
  | some i => slice.take (i + 1)
  | none => slice

/-- `const start = Math.max(0, pos - (pos>0 ? OVERLAP:0))` (natural-number
subtraction models the clamp to zero). -/
def fcStart (c : Cursor) : Nat :=
  if c.pos > 0 then c.pos - OVERLAP else 0

/-- `const bytes = BYTES + (pos>0 ? OVERLAP:0)`. -/
def fcBytes (B : Nat) (c : Cursor) : Nat :=
  B + (if c.pos > 0 then OVERLAP else 0)

/-- The bytes the `/stream` fetch hands back for the requested window:
the window `[start, start+bytes)` of the source, truncated at its end
(the behaviour proved of the local generator in `gen_local_flatten`). -/
def fcArr (B : Nat) (src : List Char) (c : Cursor) : List Char :=
  (src.drop (fcStart c)).take (fcBytes B c)

/-- `const slice = pos>0 ? text.substring(OVERLAP) : text`. -/
def fcSlice (B : Nat) (src : List Char) (c : Cursor) : List Char :=
  if c.pos > 0 then (fcArr B src c).drop OVERLAP else fcArr B src c

/-- `const keep = lastNL >= 0 ? slice.substring(0, lastNL+1) : slice`. -/
def fcKeep (B : Nat) (src : List Char) (c : Cursor) : List Char :=
  keepPart (fcSlice B src c)

/-- The body of one completed fetch cycle (`fetchChunk` after its
`done || loading` guard): compute the window, fetch it, drop the re-fetched
overlap, keep up to the last line terminator, append, advance `pos`, and
detect end-of-stream.  `B` is the page's `BYTES` constant and `src` the
source text (bytes read as characters).  The `finally` clause clears
`loading`. -/
def fetchBody (B : Nat) (src : List Char) (c : Cursor) : Cursor :=
  if (fcArr B src c).length = 0 then
    { c with done := true, loading := false }
  else
    { pos := c.pos + (fcKeep B src c).length,
      done := c.done || decide ((fcArr B src c).length < fcBytes B c),
      loading := false,
      buffer := c.buffer ++ fcKeep B src c }

/-- The `fetchChunk` function of the preview page: a no-op when a fetch is
already in flight or the cursor is terminal. -/
def fetchChunk (B : Nat) (src : List Char) (c : Cursor) : Cursor :=
  if c.done || c.loading then c else fetchBody B src { c with loading := true }

/-- A sequential run of the reader loop: `fuel` successive fetch cycles
(each cycle completing before the next trigger fires). -/
def run (B : Nat) (src : List Char) : Nat → Cursor → Cursor
  | 0, c => c
  | fuel + 1, c => run B src fuel (fetchChunk B src c)

/-! ### Event-level model of the client loop

To reason about the concurrency discipline (claim about in-flight fetches),
the trigger and the completion of a fetch are split into two events: a
scroll trigger starts a fetch only when neither `done` nor `loading` holds,
and a completion applies the response.  A ghost counter tracks how many
fetches have been issued but not yet completed. -/

inductive JsEvent
  | scroll
  | complete
deriving DecidableEq

/-- A cursor together with the ghost in-flight counter. -/
structure SysState where
  cur : Cursor
  inflight : Nat
deriving DecidableEq

/-- One event step: a scroll trigger issues a request (and sets `loading`)
only when the guard passes; a completion applies the fetch body and clears
`loading`. -/
def jsStep (B : Nat) (src : List Char) (s : SysState) : JsEvent → SysState
  | .scroll =>
    if s.cur.done || s.cur.loading then s
    else { cur := { s.cur with loading := true }, inflight := s.inflight + 1 }
  | .complete =>
    if s.cur.loading then
      { cur := fetchBody B src s.cur, inflight := s.inflight - 1 }
    else s

/-- Execute a sequence of events from a state. -/
def jsRun (B : Nat) (src : List Char) : SysState → List JsEvent → SysState
  | s, [] => s
  | s, e :: es => jsRun B src (jsStep B src s e) es

/-- The initial event-level state of a fresh preview view. -/
def initSys : SysState := { cur := initCursor, inflight := 0 }

/-! ## Lemmas about the local generator -/

theorem localChunksFuel_flatten (file : List Nat) :
    ∀ fuel p r, r ≤ fuel →
      (localChunksFuel file fuel p r).flatten = (file.drop p).take r := by
  intro fuel
  induction fuel with
  | zero =>
    intro p r hr
    have : r = 0 := Nat.le_zero.mp hr
    subst this
    simp [localChunksFuel]
  | succ n ih =>
    intro p r hr
    by_cases h0 : r = 0
    · subst h0; simp [localChunksFuel]
    · have hC : 0 < CHUNK := by decide
      have hCm : 0 < min CHUNK r := by omega
      have hkmin : ((file.drop p).take (min CHUNK r)).length
          = min (min CHUNK r) (file.drop p).length := List.length_take ..
      by_cases hemp : ((file.drop p).take (min CHUNK r)).isEmpty
      · have hnil : (file.drop p).take (min CHUNK r) = [] :=
          List.isEmpty_iff.mp hemp
        have hmin0 : min (min CHUNK r) (file.drop p).length = 0 := by
          rw [← hkmin, hnil]
          rfl
        have hlen0 : (file.drop p).length = 0 := by omega
        have hdnil : file.drop p = [] := List.length_eq_zero.mp hlen0
        rw [localChunksFuel, if_neg h0, if_pos hemp, hdnil]
        simp
      · have hkpos : 0 < ((file.drop p).take (min CHUNK r)).length := by
          rcases Nat.eq_zero_or_pos ((file.drop p).take (min CHUNK r)).length with h | h
          · exact absurd (List.isEmpty_iff.mpr (List.length_eq_zero.mp h))
              (by simpa using hemp)
          · exact h
        rw [localChunksFuel, if_neg h0, if_neg hemp, List.flatten_cons]
        obtain ⟨k, hk⟩ : ∃ k, ((file.drop p).take (min CHUNK r)).length = k := ⟨_, rfl⟩
        rw [hk]
        rw [hk] at hkmin hkpos
        have hrk : r - k ≤ n := by omega
        rw [ih (p + k) (r - k) hrk]
        have hdd : file.drop (p + k) = (file.drop p).drop k := by
          rw [List.drop_drop, Nat.add_comm]
        rw [hdd]
        by_cases hll : (file.drop p).length ≤ min CHUNK r
        · have hk1 : k = (file.drop p).length := by omega
          have h1 : (file.drop p).take (min CHUNK r) = file.drop p :=
            List.take_of_length_le hll
          have h2 : (file.drop p).drop k = [] := by
            rw [hk1]; exact List.drop_length _
          rw [h1, h2]
          simp
          have h3 : (file.drop p).length = file.length - p := List.length_drop ..
          omega
        · have hk2 : k = min CHUNK r := by omega
          have hsum : min CHUNK r + (r - min CHUNK r) = r := by omega
          rw [hk2]
          calc (file.drop p).take (min CHUNK r)
                ++ ((file.drop p).drop (min CHUNK r)).take (r - min CHUNK r)
              = (file.drop p).take (min CHUNK r + (r - min CHUNK r)) :=
                (List.take_add ..).symm
            _ = (file.drop p).take r := by rw [hsum]

/-- The bytes produced by `gen_local` are exactly the window
`[start, start+nb)` of the file, truncated at end-of-file. -/
theorem gen_local_flatten (file : List Nat) (start nb : Nat) :
    (gen_local file start nb).flatten = (file.drop start).take nb :=
  localChunksFuel_flatten file nb start nb (Nat.le_refl nb)

theorem localChunksFuel_chunk_le (file : List Nat) :
    ∀ fuel p r c, c ∈ localChunksFuel file fuel p r → c.length ≤ CHUNK := by
  intro fuel
  induction fuel with
  | zero => intro p r c hc; simp [localChunksFuel] at hc
  | succ n ih =>
    intro p r c hc
    by_cases h0 : r = 0
    · subst h0; simp [localChunksFuel] at hc
    · by_cases hemp : ((file.drop p).take (min CHUNK r)).isEmpty
      · rw [localChunksFuel, if_neg h0, if_pos hemp] at hc
        simp at hc
      · rw [localChunksFuel, if_neg h0, if_neg hemp] at hc
        rcases List.mem_cons.mp hc with h | h
        · subst h
          have := List.length_take (min CHUNK r) (file.drop p)
          omega
        · exact ih _ _ _ h

/-- Every chunk yielded by `gen_local` is at most 64 KiB long. -/
theorem gen_local_chunk_le (file : List Nat) (start nb : Nat) (c : List Nat)
    (hc : c ∈ gen_local file start nb) : c.length ≤ CHUNK :=
  localChunksFuel_chunk_le file nb start nb c hc

/-! ## Lemmas about the remote generator -/

theorem chunksOfFuel_flatten :
    ∀ fuel (l : List Nat), l.length ≤ fuel →
      (chunksOfFuel fuel l).flatten = l := by
  intro fuel
  induction fuel with
  | zero =>
    intro l hl
    have : l = [] := List.length_eq_zero.mp (Nat.le_zero.mp hl)
    subst this
    simp [chunksOfFuel]
  | succ n ih =>
    intro l hl
    by_cases hemp : l.isEmpty
    · have : l = [] := List.isEmpty_iff.mp hemp
      subst this
      simp [chunksOfFuel]
    · have hne : l ≠ [] := fun h => absurd (List.isEmpty_iff.mpr h) (by simpa using hemp)
      have hpos : 0 < l.length := List.length_pos.mpr hne
      have hrec : chunksOfFuel (n+1) l = l.take CHUNK :: chunksOfFuel n (l.drop CHUNK) := by
        simp only [chunksOfFuel]
        rw [if_neg (by simpa using hemp)]
      rw [hrec]
      have hlen : (l.drop CHUNK).length ≤ n := by
        have : (l.drop CHUNK).length = l.length - CHUNK := List.length_drop ..
        have hC : 0 < CHUNK := by decide
        omega
      simp only [List.flatten_cons, ih (l.drop CHUNK) hlen]
      exact List.take_append_drop ..

/-- `generate` forwards the upstream body unchanged: the concatenation of
its chunks is the origin's body. -/
theorem iterContent_flatten (l : List Nat) : (iterContent l).flatten = l :=
  chunksOfFuel_flatten l.length l (Nat.le_refl _)

theorem chunksOfFuel_chunk_le :
    ∀ fuel (l : List Nat) c, c ∈ chunksOfFuel fuel l → c.length ≤ CHUNK := by
  intro fuel
  induction fuel with
  | zero => intro l c hc; simp [chunksOfFuel] at hc
  | succ n ih =>
    intro l c hc
    by_cases hemp : l.isEmpty
    · simp [chunksOfFuel, hemp] at hc
    · simp only [chunksOfFuel] at hc
      rw [if_neg (by simpa using hemp)] at hc
      rcases List.mem_cons.mp hc with h | h
      · subst h
        have := List.length_take_le CHUNK l
        omega
      · exact ih _ _ h

/-- Every chunk yielded by `generate` is at most 64 KiB long. -/
theorem iterContent_chunk_le (l : List Nat) (c : List Nat)
    (hc : c ∈ iterContent l) : c.length ≤ CHUNK :=
  chunksOfFuel_chunk_le l.length l c hc

/-! ## Characterizations of the `/stream` handler's paths -/

/-- The `end` index `start + nb - 1` computed by the handler. -/
def streamEnd (a : StreamArgs) : Int :=
  streamStart a + (streamNb a : Int) - 1

theorem stream_local_char (ctx : Ctx) (a : StreamArgs) (fid : String)
    (rec : FileRecord) (file : List Nat)
    (hid : a.idArg = some fid)
    (hrec : ctx.records fid = some rec)
    (hstart : a.startRaw ≠ some none)
    (hsto : rec.storage = "local")
    (hfs : ctx.localFs rec.url = some file)
    (hs : 0 ≤ streamStart a) :
    stream ctx a =
      { status := 200,
        body := .streamed (gen_local file (streamStart a).toNat (streamNb a)),
        contentType := some "application/octet-stream",
        acceptRanges := some "bytes",
        contentRange := some (contentRangeStr (streamStart a) (streamEnd a)) } := by
  have hs' : ¬ streamStart a < 0 := not_lt.mpr hs
  cases hsr : a.startRaw with
  | none =>
    simp [stream, hid, hrec, hsr, hsto, hfs, hs', streamEnd]
  | some v =>
    cases v with
    | none => exact absurd hsr hstart
    | some s =>
      simp [stream, hid, hrec, hsr, hsto, hfs, hs', streamEnd]

theorem stream_remote_pass (ctx : Ctx) (a : StreamArgs) (fid : String)
    (rec : FileRecord) (r : HttpResp)
    (hid : a.idArg = some fid)
    (hrec : ctx.records fid = some rec)
    (hstart : a.startRaw ≠ some none)
    (hsto : ¬ rec.storage = "local")
    (hnf : "file://".data.isPrefixOf rec.url.data = false)
    (hnl : ctx.localFs rec.url = none)
    (hh : ctx.http rec.url (streamStart a) (streamEnd a) = some r)
    (h2xx : r.status = 200 ∨ r.status = 206) :
    stream ctx a =
      { status := 200,
        body := .streamed (iterContent r.body),
        contentType := some (r.contentType.getD "application/octet-stream"),
        acceptRanges := some (r.acceptRanges.getD "bytes"),
        contentRange := some (r.contentRange.getD
          (contentRangeStr (streamStart a) (streamEnd a))) } := by
  have hcond : ¬ (r.status ≠ 200 ∧ r.status ≠ 206) := by
    rcases h2xx with h | h <;> simp [h]
  simp only [streamEnd] at hh
  cases hsr : a.startRaw with
  | none =>
    simp [stream, hid, hrec, hsr, hsto, hnf, hnl, hh, hcond, streamEnd]
  | some v =>
    cases v with
    | none => exact absurd hsr hstart
    | some s =>
      simp [stream, hid, hrec, hsr, hsto, hnf, hnl, hh, hcond, streamEnd]

theorem stream_remote_err (ctx : Ctx) (a : StreamArgs) (fid : String)
    (rec : FileRecord) (r : HttpResp)
    (hid : a.idArg = some fid)
    (hrec : ctx.records fid = some rec)
    (hstart : a.startRaw ≠ some none)
    (hsto : ¬ rec.storage = "local")
    (hnf : "file://".data.isPrefixOf rec.url.data = false)
    (hnl : ctx.localFs rec.url = none)
    (hh : ctx.http rec.url (streamStart a) (streamEnd a) = some r)
    (hne2 : r.status ≠ 200)
    (hne6 : r.status ≠ 206) :
    stream ctx a =
      { status := r.status,
        body := .raw r.body,
        contentType := some (r.contentType.getD "application/octet-stream") } := by
  simp only [streamEnd] at hh
  cases hsr : a.startRaw with
  | none =>
    simp [stream, hid, hrec, hsr, hsto, hnf, hnl, hh, hne2, hne6]
  | some v =>
    cases v with
    | none => exact absurd hsr hstart
    | some s =>
      simp [stream, hid, hrec, hsr, hsto, hnf, hnl, hh, hne2, hne6]

/-! ## Concrete environments used by counterexamples and witnesses -/

/-- A record of a locally uploaded file. -/
def recLocal : FileRecord :=
  { name := "notes.txt", url := "uploads/f1", storage := "local" }

/-- A record of a remote file. -/
def recRemote : FileRecord :=
  { name := "big.txt", url := "http://origin/x", storage := "remote" }

/-- An origin that ignores the `Range` header: it answers HTTP 200 with the
whole five-byte file, whatever window is requested. -/
def respFull200 : HttpResp :=
  { status := 200, body := [1, 2, 3, 4, 5],
    contentType := none, acceptRanges := none, contentRange := none }

/-- Environment with one local three-byte file. -/
def ctxLocal : Ctx :=
  { records := fun s => if s = "fid1" then some recLocal else none,
    localFs := fun p => if p = "uploads/f1" then some [7, 8, 9] else none,
    http := fun _ _ _ => none }

/-- Environment with one remote record whose origin ignores ranges. -/
def ctxRemote : Ctx :=
  { records := fun s => if s = "fid2" then some recRemote else none,
    localFs := fun _ => none,
    http := fun u _ _ => if u = "http://origin/x" then some respFull200 else none }

/-- A request for the two-byte window starting at offset 2. -/
def argsWin22 : StreamArgs :=
  { idArg := some "fid2", startRaw := some (some 2), bytesRaw := some (some 2) }

/-- A request for ten bytes of the local file from offset 0. -/
def argsBig10 : StreamArgs :=
  { idArg := some "fid1", startRaw := some (some 0), bytesRaw := some (some 10) }

/-- A request whose `bytes` parameter does not parse as an integer. -/
def argsBadBytes : StreamArgs :=
  { idArg := some "fid1", startRaw := some (some 0), bytesRaw := some none }

/-- A request whose `start` parameter is the negative integer `-1`. -/
def argsNegStart : StreamArgs :=
  { idArg := some "fid1", startRaw := some (some (-1)), bytesRaw := some (some 5) }

/-- A request for four bytes starting past the end of the local file. -/
def argsPastEnd : StreamArgs :=
  { idArg := some "fid1", startRaw := some (some 5), bytesRaw := some (some 4) }

/-- A request whose `start` parameter fails integer parsing. -/
def argsBadStart : StreamArgs :=
  { idArg := some "fid1", startRaw := some none, bytesRaw := none }

/-- A remote record whose stored URL is a `file://` URL. -/
def recFileUrl : FileRecord :=
  { name := "evil", url := "file:///etc/passwd", storage := "remote" }

/-- Environment holding the `file://` remote record. -/
def ctxFileUrl : Ctx :=
  { records := fun s => if s = "fid3" then some recFileUrl else none,
    localFs := fun _ => none,
    http := fun _ _ _ => none }

/-- A request addressing the `file://` remote record. -/
def argsFid3 : StreamArgs :=
  { idArg := some "fid3", startRaw := some (some 0), bytesRaw := none }

/-- An origin response with a non-success status. -/
def resp404 : HttpResp :=
  { status := 404, body := [110, 111], contentType := some "text/plain",
    acceptRanges := none, contentRange := none }

/-- A remote record whose origin answers 404. -/
def recRemoteY : FileRecord :=
  { name := "y.txt", url := "http://origin/y", storage := "remote" }

/-- Environment whose remote origin answers 404. -/
def ctxRemoteErr : Ctx :=
  { records := fun s => if s = "fid4" then some recRemoteY else none,
    localFs := fun _ => none,
    http := fun u _ _ => if u = "http://origin/y" then some resp404 else none }

/-- A request addressing the 404-origin record. -/
def argsFid4 : StreamArgs :=
  { idArg := some "fid4", startRaw := some (some 0), bytesRaw := some (some 2) }

/-! ## Lemmas about the line scanner of the client -/

theorem lastNLIdx_append (xs ys : List Char) :
    lastNLIdx (xs ++ ys) =
      match lastNLIdx ys with
      | some j => some (xs.length + j)
      | none => lastNLIdx xs := by
  induction xs with
  | nil =>
    cases h : lastNLIdx ys <;> simp [h, lastNLIdx]
  | cons c cs ih =>
    rw [List.cons_append, lastNLIdx, ih]
    cases h : lastNLIdx ys with
    | none => rfl
    | some j => simp [lastNLIdx]; omega

theorem lastNLIdx_replicate (n : Nat) (c : Char) (h : ¬ c = nlChar) :
    lastNLIdx (List.replicate n c) = none := by
  induction n with
  | zero => rfl
  | succ m ih => rw [List.replicate_succ, lastNLIdx, ih, if_neg h]

theorem lastNLIdx_lt_length (l : List Char) (i : Nat)
    (h : lastNLIdx l = some i) : i < l.length := by
  induction l generalizing i with
  | nil => cases h
  | cons c cs ih =>
    rw [lastNLIdx] at h
    cases hc : lastNLIdx cs with
    | some j =>
      rw [hc] at h
      obtain rfl : j + 1 = i := by injection h
      have := ih j hc
      simp [List.length_cons]
      omega
    | none =>
      rw [hc] at h
      by_cases hcn : c = nlChar
      · rw [if_pos hcn] at h
        obtain rfl : (0 : Nat) = i := by injection h
        simp
      · rw [if_neg hcn] at h
        cases h

theorem lastNLIdx_getElem (l : List Char) (i : Nat)
    (h : lastNLIdx l = some i) : l[i]? = some nlChar := by
  induction l generalizing i with
  | nil => cases h
  | cons c cs ih =>
    rw [lastNLIdx] at h
    cases hc : lastNLIdx cs with
    | some j =>
      rw [hc] at h
      obtain rfl : j + 1 = i := by injection h
      simpa using ih j hc
    | none =>
      rw [hc] at h
      by_cases hcn : c = nlChar
      · rw [if_pos hcn] at h
        obtain rfl : (0 : Nat) = i := by injection h
        simp [hcn]
      · rw [if_neg hcn] at h
        cases h

theorem lastNLIdx_none_notMem (l : List Char) (h : lastNLIdx l = none) :
    nlChar ∉ l := by
  induction l with
  | nil => simp
  | cons c cs ih =>
    rw [lastNLIdx] at h
    cases hc : lastNLIdx cs with
    | some j => rw [hc] at h; cases h
    | none =>
      rw [hc] at h
      by_cases hcn : c = nlChar
      · rw [if_pos hcn] at h; cases h
      · simp only [List.mem_cons, not_or]
        exact ⟨fun hx => hcn hx.symm, ih hc⟩

theorem lastNLIdx_append_none (xs ys : List Char) (h : lastNLIdx ys = none) :
    lastNLIdx (xs ++ ys) = lastNLIdx xs := by
  rw [lastNLIdx_append, h]

theorem lastNLIdx_append_some (xs ys : List Char) (j : Nat)
    (h : lastNLIdx ys = some j) :
    lastNLIdx (xs ++ ys) = some (xs.length + j) := by
  rw [lastNLIdx_append, h]

theorem keepPart_eq_of_some (l : List Char) (i : Nat)
    (h : lastNLIdx l = some i) : keepPart l = l.take (i + 1) := by
  unfold keepPart
  rw [h]

theorem keepPart_eq_of_none (l : List Char) (h : lastNLIdx l = none) :
    keepPart l = l := by
  unfold keepPart
  rw [h]

/-- Every kept part ends with the line terminator or contains none. -/
theorem keepPart_ends (l : List Char) :
    (keepPart l).getLast? = some nlChar ∨ nlChar ∉ keepPart l := by
  unfold keepPart
  cases h : lastNLIdx l with
  | none => exact Or.inr (lastNLIdx_none_notMem l h)
  | some i =>
    left
    have hlt := lastNLIdx_lt_length l i h
    have hget := lastNLIdx_getElem l i h
    have hlen : (l.take (i + 1)).length = i + 1 := by
      rw [List.length_take]; omega
    rw [List.getLast?_eq_getElem?, hlen, Nat.add_sub_cancel,
      List.getElem?_take, if_pos (by omega)]
    exact hget

theorem keepPart_length_le (l : List Char) : (keepPart l).length ≤ l.length := by
  cases h : lastNLIdx l with
  | none => simp only [keepPart, h]; exact Nat.le_refl _
  | some i => simp only [keepPart, h]; rw [List.length_take]; omega

/-- The kept part of a window of `l` is an initial segment of `l` itself. -/
theorem keepPart_take (l : List Char) (m : Nat) :
    keepPart (l.take m) = l.take ((keepPart (l.take m)).length) := by
  cases h : lastNLIdx (l.take m) with
  | none =>
    simp only [keepPart, h]
    rw [List.length_take]
    exact List.take_eq_take.mpr (by omega)
  | some i =>
    simp only [keepPart, h]
    rw [List.take_take, List.length_take]
    exact List.take_eq_take.mpr (by omega)

/-- A nonempty window always yields a nonempty kept part. -/
theorem keepPart_ne_nil (l : List Char) (h : l ≠ []) : keepPart l ≠ [] := by
  cases hc : lastNLIdx l with
  | none => simpa only [keepPart, hc] using h
  | some i =>
    simp only [keepPart, hc]
    have h1 := lastNLIdx_lt_length l i hc
    intro hnil
    have h2 := congrArg List.length hnil
    rw [List.length_take] at h2
    simp only [List.length_nil] at h2
    omega

/-! ## The reader loop invariant -/

theorem fcArr_pos0 (B : Nat) (src : List Char) (c : Cursor) (h : c.pos = 0) :
    fcArr B src c = src.take B := by
  simp [fcArr, fcStart, fcBytes, h]

theorem fcSlice_pos0 (B : Nat) (src : List Char) (c : Cursor) (h : c.pos = 0) :
    fcSlice B src c = src.take B := by
  simp [fcSlice, h, fcArr_pos0 B src c h]

theorem fcArr_posO (B : Nat) (src : List Char) (c : Cursor) (hp : 0 < c.pos) :
    fcArr B src c = (src.drop (c.pos - OVERLAP)).take (B + OVERLAP) := by
  simp [fcArr, fcStart, fcBytes, hp]

theorem fcBytes_pos0 (B : Nat) (c : Cursor) (h : c.pos = 0) :
    fcBytes B c = B := by
  simp [fcBytes, h]

theorem fcBytes_posO (B : Nat) (c : Cursor) (hp : 0 < c.pos) :
    fcBytes B c = B + OVERLAP := by
  simp [fcBytes, hp]

theorem fcSlice_posO (B : Nat) (src : List Char) (c : Cursor)
    (hpos : OVERLAP ≤ c.pos) :
    fcSlice B src c = (src.drop c.pos).take B := by
  have hOV : OVERLAP = 1024 := rfl
  have hp : 0 < c.pos := by omega
  rw [fcSlice, if_pos hp, fcArr_posO B src c hp, List.drop_take,
    List.drop_drop]
  have h1 : c.pos - OVERLAP + OVERLAP = c.pos := by omega
  have h2 : B + OVERLAP - OVERLAP = B := by omega
  rw [h1, h2]

/-- The state invariant maintained by the reader loop under the alignment
condition: the visible buffer is exactly the first `pos` characters of the
source, `pos` never passes the end, a nonzero `pos` of a live cursor is at
least `OVERLAP`, and no fetch is marked in flight between cycles. -/
def Inv (src : List Char) (c : Cursor) : Prop :=
  c.buffer = src.take c.pos ∧ c.pos ≤ src.length ∧
  (c.pos = 0 ∨ OVERLAP ≤ c.pos ∨ c.done = true) ∧ c.loading = false

/-- Alignment condition on the source: the first fetch either exhausts the
source or confirms at least `OVERLAP` characters, so that later windows
(which start at `pos - OVERLAP` and discard `OVERLAP` characters) line up
with the already-consumed prefix. -/
def AlignedSrc (B : Nat) (src : List Char) : Prop :=
  src.length < B ∨ OVERLAP ≤ (keepPart (src.take B)).length

theorem fetchChunk_noop (B : Nat) (src : List Char) (c : Cursor)
    (h : c.done = true ∨ c.loading = true) : fetchChunk B src c = c := by
  rcases h with h | h <;> simp [fetchChunk, h]

/-- A fetch cycle on a live, idle cursor runs the fetch body with the
in-flight flag set. -/
theorem fetchChunk_go (B : Nat) (src : List Char) (c : Cursor)
    (hd : c.done = false) (hl : c.loading = false) :
    fetchChunk B src c = fetchBody B src { c with loading := true } := by
  rw [fetchChunk, hd, hl]
  rfl

/-- The fetch body on a window that returned data: append the kept part,
advance `pos`, detect end-of-stream, clear the in-flight flag. -/
theorem fetchBody_char (B : Nat) (src : List Char) (c : Cursor)
    (hne : ¬ (fcArr B src c).length = 0) :
    fetchBody B src c =
      { pos := c.pos + (fcKeep B src c).length,
        done := c.done || decide ((fcArr B src c).length < fcBytes B c),
        loading := false,
        buffer := c.buffer ++ fcKeep B src c } := by
  rw [fetchBody, if_neg hne]

/-- The `finally` clause always clears the in-flight flag. -/
theorem fetchBody_loading (B : Nat) (src : List Char) (c : Cursor) :
    (fetchBody B src c).loading = false := by
  unfold fetchBody
  by_cases h : (fcArr B src c).length = 0
  · rw [if_pos h]
  · rw [if_neg h]

theorem fetchChunk_preserves_Inv (B : Nat) (src : List Char) (c : Cursor)
    (hB : 0 < B) (hA : AlignedSrc B src) (h : Inv src c) :
    Inv src (fetchChunk B src c) := by
  obtain ⟨hbuf, hle, hdisj, hload⟩ := h
  have hA' : src.length < B ∨ OVERLAP ≤ (keepPart (src.take B)).length := hA
  have hOV : OVERLAP = 1024 := rfl
  by_cases hd : c.done = true
  · rw [fetchChunk_noop B src c (Or.inl hd)]
    exact ⟨hbuf, hle, hdisj, hload⟩
  · have hd' : c.done = false := by rw [Bool.not_eq_true] at hd; exact hd
    have hne : ¬ (c.done || c.loading) = true := by simp [hd', hload]
    rw [fetchChunk, if_neg hne]
    rcases hdisj with hp0 | hpO | hcd
    · -- first fetch: pos = 0
      have harr : fcArr B src { c with loading := true } = src.take B :=
        fcArr_pos0 _ _ _ hp0
      have hslice : fcSlice B src { c with loading := true } = src.take B :=
        fcSlice_pos0 _ _ _ hp0
      unfold fetchBody fcKeep
      rw [harr, hslice, fcBytes_pos0 B { c with loading := true } hp0]
      by_cases hemp : (src.take B).length = 0
      · rw [if_pos hemp]
        exact ⟨hbuf, hle, Or.inl hp0, rfl⟩
      · rw [if_neg hemp]
        have hkp := keepPart_take src B
        have hkle : (keepPart (src.take B)).length ≤ (src.take B).length :=
          keepPart_length_le _
      -- named below: k is the number of characters confirmed by this fetch
        have htlen : (src.take B).length = min B src.length := List.length_take ..
        refine ⟨?_, ?_, ?_, rfl⟩
        · show c.buffer ++ keepPart (src.take B)
            = src.take (c.pos + (keepPart (src.take B)).length)
          rw [hbuf, hp0, List.take_zero, List.nil_append, Nat.zero_add]
          exact hkp
        · show c.pos + (keepPart (src.take B)).length ≤ src.length
          omega
        · by_cases hfull : (src.take B).length < B
          · right; right
            show (c.done || decide ((src.take B).length < B)) = true
            rw [decide_eq_true hfull, Bool.or_true]
          · right; left
            rcases hA' with hA' | hA'
            · exfalso; omega
            · show OVERLAP ≤ c.pos + (keepPart (src.take B)).length
              omega
    · -- later fetch: OVERLAP ≤ pos
      have hp : 0 < c.pos := by omega
      have harr : fcArr B src { c with loading := true }
          = (src.drop (c.pos - OVERLAP)).take (B + OVERLAP) :=
        fcArr_posO _ _ _ hp
      have hslice : fcSlice B src { c with loading := true }
          = (src.drop c.pos).take B :=
        fcSlice_posO _ _ _ hpO
      unfold fetchBody fcKeep
      rw [harr, hslice, fcBytes_posO B { c with loading := true } hp]
      by_cases hemp : ((src.drop (c.pos - OVERLAP)).take (B + OVERLAP)).length = 0
      · rw [if_pos hemp]
        exact ⟨hbuf, hle, Or.inr (Or.inl hpO), rfl⟩
      · rw [if_neg hemp]
        have hkp := keepPart_take (src.drop c.pos) B
        have hkle : (keepPart ((src.drop c.pos).take B)).length
            ≤ ((src.drop c.pos).take B).length := keepPart_length_le _
        have htlen : ((src.drop c.pos).take B).length
            = min B (src.drop c.pos).length := List.length_take ..
        have hdlen : (src.drop c.pos).length = src.length - c.pos :=
          List.length_drop ..
        refine ⟨?_, ?_, ?_, rfl⟩
        · show c.buffer ++ keepPart ((src.drop c.pos).take B)
            = src.take (c.pos + (keepPart ((src.drop c.pos).take B)).length)
          rw [hbuf, hkp, ← List.take_add, List.length_take]
          congr 1
          omega
        · show c.pos + (keepPart ((src.drop c.pos).take B)).length ≤ src.length
          omega
        · right; left
          show OVERLAP ≤ c.pos + (keepPart ((src.drop c.pos).take B)).length
          omega
    · exact absurd hcd (by simp [hd'])

theorem fetchChunk_seg (B : Nat) (src : List Char) (c : Cursor) :
    (fetchChunk B src c).buffer.drop c.buffer.length = [] ∨
    ((fetchChunk B src c).buffer.drop c.buffer.length).getLast? = some nlChar ∨
    nlChar ∉ (fetchChunk B src c).buffer.drop c.buffer.length := by
  by_cases hg : (c.done || c.loading) = true
  · rw [fetchChunk, if_pos hg]
    exact Or.inl (List.drop_length _)
  · rw [fetchChunk, if_neg hg]
    unfold fetchBody
    by_cases hemp : (fcArr B src { c with loading := true }).length = 0
    · rw [if_pos hemp]
      exact Or.inl (List.drop_length _)
    · rw [if_neg hemp]
      have hdl : (c.buffer ++ fcKeep B src { c with loading := true }).drop
          c.buffer.length = fcKeep B src { c with loading := true } :=
        List.drop_left ..
      rcases keepPart_ends (fcSlice B src { c with loading := true }) with h | h
      · right; left
        show ((c.buffer ++ fcKeep B src { c with loading := true }).drop
          c.buffer.length).getLast? = some nlChar
        rw [hdl]
        exact h
      · right; right
        show nlChar ∉ (c.buffer ++ fcKeep B src { c with loading := true }).drop
          c.buffer.length
        rw [hdl]
        exact h

theorem fetchChunk_terminal (B : Nat) (src : List Char) (c : Cursor)
    (hB : 0 < B) (h : Inv src c) (hd : c.done = false)
    (hdone : (fetchChunk B src c).done = true) :
    (fetchChunk B src c).buffer = keepPart src ∨
    (fetchChunk B src c).buffer = src := by
  obtain ⟨hbuf, hle, hdisj, hload⟩ := h
  have hOV : OVERLAP = 1024 := rfl
  have hne : ¬ (c.done || c.loading) = true := by simp [hd, hload]
  rw [fetchChunk, if_neg hne] at hdone ⊢
  rcases hdisj with hp0 | hpO | hcd
  · -- first fetch: pos = 0
    have harr : fcArr B src { c with loading := true } = src.take B :=
      fcArr_pos0 _ _ _ hp0
    have hslice : fcSlice B src { c with loading := true } = src.take B :=
      fcSlice_pos0 _ _ _ hp0
    unfold fetchBody fcKeep at hdone ⊢
    rw [harr, hslice, fcBytes_pos0 B { c with loading := true } hp0] at hdone ⊢
    by_cases hemp : (src.take B).length = 0
    · rw [if_pos hemp] at hdone ⊢
      have htlen : (src.take B).length = min B src.length := List.length_take ..
      have hs0 : src.length = 0 := by omega
      have hsrc : src = [] := List.length_eq_zero.mp hs0
      left
      show c.buffer = keepPart src
      rw [hbuf, hp0, hsrc]
      rfl
    · rw [if_neg hemp] at hdone ⊢
      have hdone' : (c.done || decide ((src.take B).length < B)) = true := hdone
      rw [hd, Bool.false_or, decide_eq_true_eq] at hdone'
      have hlt : (src.take B).length < B := hdone'
      have htlen : (src.take B).length = min B src.length := List.length_take ..
      have htake : src.take B = src := List.take_of_length_le (by omega)
      left
      show c.buffer ++ keepPart (src.take B) = keepPart src
      rw [htake, hbuf, hp0, List.take_zero, List.nil_append]
  · -- later fetch: OVERLAP ≤ pos
    have hp : 0 < c.pos := by omega
    have harr : fcArr B src { c with loading := true }
        = (src.drop (c.pos - OVERLAP)).take (B + OVERLAP) :=
      fcArr_posO _ _ _ hp
    have hslice : fcSlice B src { c with loading := true }
        = (src.drop c.pos).take B :=
      fcSlice_posO _ _ _ hpO
    unfold fetchBody fcKeep at hdone ⊢
    rw [harr, hslice, fcBytes_posO B { c with loading := true } hp] at hdone ⊢
    by_cases hemp : ((src.drop (c.pos - OVERLAP)).take (B + OVERLAP)).length = 0
    · exfalso
      rw [List.length_take, List.length_drop] at hemp
      omega
    · rw [if_neg hemp] at hdone ⊢
      have hdone' : (c.done || decide
          (((src.drop (c.pos - OVERLAP)).take (B + OVERLAP)).length
            < B + OVERLAP)) = true := hdone
      rw [hd, Bool.false_or, decide_eq_true_eq] at hdone'
      have hlt := hdone'
      rw [List.length_take, List.length_drop] at hlt
      have hslicefull : (src.drop c.pos).take B = src.drop c.pos :=
        List.take_of_length_le (by rw [List.length_drop]; omega)
      show c.buffer ++ keepPart ((src.drop c.pos).take B) = keepPart src ∨
        c.buffer ++ keepPart ((src.drop c.pos).take B) = src
      rw [hslicefull, hbuf]
      cases hnl : lastNLIdx (src.drop c.pos) with
      | none =>
        right
        simp only [keepPart, hnl]
        exact List.take_append_drop ..
      | some i =>
        left
        have hmin : min c.pos src.length = c.pos := by omega
        have hsrcnl : lastNLIdx src = some (c.pos + i) := by
          conv_lhs => rw [← List.take_append_drop c.pos src]
          rw [lastNLIdx_append, hnl]
          show some ((src.take c.pos).length + i) = some (c.pos + i)
          rw [List.length_take, hmin]
        simp only [keepPart, hnl, hsrcnl]
        rw [← List.take_add]
        have hadd : c.pos + (i + 1) = c.pos + i + 1 := by omega
        rw [hadd]
  · exact absurd hcd (by simp [hd])

/-- The invariant together with the meaning of a terminal cursor. -/
def Inv2 (src : List Char) (c : Cursor) : Prop :=
  Inv src c ∧
  (c.done = true → c.buffer = keepPart src ∨ c.buffer = src)

theorem fetchChunk_preserves_Inv2 (B : Nat) (src : List Char) (c : Cursor)
    (hB : 0 < B) (hA : AlignedSrc B src) (h : Inv2 src c) :
    Inv2 src (fetchChunk B src c) := by
  refine ⟨fetchChunk_preserves_Inv B src c hB hA h.1, ?_⟩
  intro hdone
  by_cases hd : c.done = true
  · rw [fetchChunk_noop B src c (Or.inl hd)]
    exact h.2 hd
  · have hd' : c.done = false := by rw [Bool.not_eq_true] at hd; exact hd
    exact fetchChunk_terminal B src c hB h.1 hd' hdone

theorem run_Inv2 (B : Nat) (src : List Char) (hB : 0 < B)
    (hA : AlignedSrc B src) :
    ∀ (fuel : Nat) (c : Cursor), Inv2 src c → Inv2 src (run B src fuel c) := by
  intro fuel
  induction fuel with
  | zero => intro c h; exact h
  | succ n ih =>
    intro c h
    exact ih _ (fetchChunk_preserves_Inv2 B src c hB hA h)

theorem initCursor_Inv2 (src : List Char) : Inv2 src initCursor := by
  refine ⟨⟨?_, ?_, Or.inl rfl, rfl⟩, ?_⟩
  · show ([] : List Char) = src.take 0
    rfl
  · exact Nat.zero_le _
  · intro h; cases h

/-! ## A run on which the overlap arithmetic loses data

The source below is one byte longer than the 1 MiB chunk size.  Its first
window is `"ab\n"` followed by a single enormous line of `x`s, so the
first fetch confirms only three characters; the second fetch then starts
at offset `max(0, 3 - 1024) = 0` but still discards `OVERLAP = 1024`
decoded characters, silently dropping offsets 3..1023 of the source. -/

/-- `"ab\n" ++ "x" * 1048573 ++ "\n"`, of length 1048577. -/
def srcEx : List Char :=
  ['a', 'b', nlChar] ++ (List.replicate 1048573 'x' ++ [nlChar])

theorem srcEx_length : srcEx.length = 1048577 := by
  rw [srcEx, List.length_append, List.length_append, List.length_replicate]
  rfl

theorem srcEx_take_B :
    srcEx.take DEFAULT_BYTES
      = ['a', 'b', nlChar] ++ List.replicate 1048573 'x' := by
  rw [srcEx, List.take_append_eq_append_take]
  rw [List.take_of_length_le (l := ['a', 'b', nlChar]) (by decide)]
  rw [show DEFAULT_BYTES - (['a', 'b', nlChar] : List Char).length = 1048573
    from by decide]
  rw [List.take_append_eq_append_take, List.take_replicate,
    List.length_replicate]
  rw [show min 1048573 1048573 = 1048573 from by decide,
    show (1048573 : Nat) - 1048573 = 0 from by decide,
    List.take_zero, List.append_nil]

theorem srcEx_drop_OVERLAP :
    srcEx.drop OVERLAP = List.replicate 1047552 'x' ++ [nlChar] := by
  rw [srcEx, List.drop_append_eq_append_drop]
  rw [List.drop_eq_nil_of_le
      (show (['a', 'b', nlChar] : List Char).length ≤ OVERLAP from by decide),
    List.nil_append]
  rw [show OVERLAP - (['a', 'b', nlChar] : List Char).length = 1021
    from by decide]
  rw [List.drop_append_eq_append_drop, List.drop_replicate,
    List.length_replicate]
  rw [show (1048573 : Nat) - 1021 = 1047552 from by decide,
    show (1021 : Nat) - 1048573 = 0 from by decide, List.drop_zero]

theorem srcEx_keep1 :
    keepPart (['a', 'b', nlChar] ++ List.replicate 1048573 'x')
      = ['a', 'b', nlChar] := by
  have hrep : lastNLIdx (List.replicate 1048573 'x') = none :=
    lastNLIdx_replicate _ _ (by decide)
  have hnl : lastNLIdx (['a', 'b', nlChar] ++ List.replicate 1048573 'x')
      = some 2 := by
    rw [lastNLIdx_append_none _ _ hrep]
    decide
  rw [keepPart_eq_of_some _ 2 hnl]
  rw [List.take_append_eq_append_take]
  rw [show (2 : Nat) + 1 - (['a', 'b', nlChar] : List Char).length = 0
    from by decide]
  rw [List.take_zero, List.append_nil]
  rfl

theorem srcEx_keep2 :
    keepPart (List.replicate 1047552 'x' ++ [nlChar])
      = List.replicate 1047552 'x' ++ [nlChar] := by
  have hnl : lastNLIdx (List.replicate 1047552 'x' ++ [nlChar])
      = some 1047552 := by
    rw [lastNLIdx_append_some _ _ 0 (by decide), List.length_replicate]
  rw [keepPart_eq_of_some _ 1047552 hnl]
  apply List.take_of_length_le
  rw [List.length_append, List.length_replicate]
  decide

/-- The cursor after the first fetch cycle on `srcEx`: only three of the
1048576 fetched characters were confirmed. -/
def cursor1 : Cursor :=
  { pos := 3, done := false, loading := false, buffer := ['a', 'b', nlChar] }

/-- The terminal cursor after the second fetch cycle on `srcEx`: offsets
3..1023 of the source were never appended. -/
def cursor2 : Cursor :=
  { pos := 1047556, done := true, loading := false,
    buffer := ['a', 'b', nlChar] ++ (List.replicate 1047552 'x' ++ [nlChar]) }

theorem srcEx_step1 :
    fetchChunk DEFAULT_BYTES srcEx initCursor = cursor1 := by
  rw [fetchChunk_go DEFAULT_BYTES srcEx initCursor rfl rfl]
  have hlenTB : ((['a', 'b', nlChar] : List Char)
      ++ List.replicate 1048573 'x').length = 1048576 := by
    rw [List.length_append, List.length_replicate]
    rfl
  have harr : fcArr DEFAULT_BYTES srcEx { initCursor with loading := true }
      = ['a', 'b', nlChar] ++ List.replicate 1048573 'x' := by
    rw [fcArr_pos0 DEFAULT_BYTES srcEx { initCursor with loading := true } rfl,
      srcEx_take_B]
  have hkeep : fcKeep DEFAULT_BYTES srcEx { initCursor with loading := true }
      = ['a', 'b', nlChar] := by
    rw [fcKeep, fcSlice_pos0 DEFAULT_BYTES srcEx
      { initCursor with loading := true } rfl, srcEx_take_B, srcEx_keep1]
  have hne : ¬ (fcArr DEFAULT_BYTES srcEx
      { initCursor with loading := true }).length = 0 := by
    rw [harr, hlenTB]
    decide
  rw [fetchBody_char _ _ _ hne, hkeep, harr, hlenTB,
    fcBytes_pos0 DEFAULT_BYTES { initCursor with loading := true } rfl]
  rfl

theorem srcEx_step2 : fetchChunk DEFAULT_BYTES srcEx cursor1 = cursor2 := by
  rw [fetchChunk_go DEFAULT_BYTES srcEx cursor1 rfl rfl]
  have hp : 0 < ({ cursor1 with loading := true } : Cursor).pos := by decide
  have harr : fcArr DEFAULT_BYTES srcEx { cursor1 with loading := true }
      = srcEx := by
    rw [fcArr_posO _ _ _ hp]
    rw [show ({ cursor1 with loading := true } : Cursor).pos - OVERLAP = 0
      from by decide, List.drop_zero]
    exact List.take_of_length_le (by rw [srcEx_length]; decide)
  have hkeep : fcKeep DEFAULT_BYTES srcEx { cursor1 with loading := true }
      = List.replicate 1047552 'x' ++ [nlChar] := by
    rw [fcKeep, fcSlice, if_pos hp, harr, srcEx_drop_OVERLAP, srcEx_keep2]
  have hne : ¬ (fcArr DEFAULT_BYTES srcEx
      { cursor1 with loading := true }).length = 0 := by
    rw [harr, srcEx_length]
    decide
  have hlen2 : ((List.replicate 1047552 'x' : List Char)
      ++ [nlChar]).length = 1047553 := by
    rw [List.length_append, List.length_replicate]
    rfl
  rw [fetchBody_char _ _ _ hne, hkeep, harr, srcEx_length, hlen2,
    fcBytes_posO DEFAULT_BYTES { cursor1 with loading := true } hp]
  rfl

/-- The whole of `srcEx` is confirmed text: it ends with a line
terminator, so the claim's target, the source up to its last line
boundary, is the whole source. -/
theorem srcEx_keepPart : keepPart srcEx = srcEx := by
  have h1 : lastNLIdx (List.replicate 1048573 'x' ++ [nlChar])
      = some 1048573 := by
    rw [lastNLIdx_append_some _ _ 0 (by decide), List.length_replicate]
  have h2 : lastNLIdx srcEx = some 1048576 := by
    rw [srcEx, lastNLIdx_append_some _ _ 1048573 h1]
    rfl
  rw [keepPart_eq_of_some _ 1048576 h2]
  exact List.take_of_length_le (by rw [srcEx_length])

theorem run_zero (B : Nat) (src : List Char) (c : Cursor) :
    run B src 0 c = c := rfl

theorem run_succ (B : Nat) (src : List Char) (fuel : Nat) (c : Cursor) :
    run B src (fuel + 1) c = run B src fuel (fetchChunk B src c) := rfl

/-- The two-cycle run on `srcEx` in full. -/
theorem srcEx_run2 : run DEFAULT_BYTES srcEx 2 initCursor = cursor2 := by
  have e1 : run DEFAULT_BYTES srcEx 2 initCursor
      = run DEFAULT_BYTES srcEx 1 (fetchChunk DEFAULT_BYTES srcEx initCursor) :=
    run_succ DEFAULT_BYTES srcEx 1 initCursor
  have e2 : run DEFAULT_BYTES srcEx 1 cursor1
      = run DEFAULT_BYTES srcEx 0 (fetchChunk DEFAULT_BYTES srcEx cursor1) :=
    run_succ DEFAULT_BYTES srcEx 0 cursor1
  rw [e1, srcEx_step1, e2, srcEx_step2, run_zero]

/-! ## Shared consequences of the path characterizations -/

/-- Exact window behaviour of the local path, shared by several claims. -/
theorem stream_local_window (ctx : Ctx) (a : StreamArgs) (fid : String)
    (rec : FileRecord) (file : List Nat) (s k : Int)
    (hid : a.idArg = some fid)
    (hrec : ctx.records fid = some rec)
    (hsto : rec.storage = "local")
    (hfs : ctx.localFs rec.url = some file)
    (hstart : a.startRaw = some (some s))
    (hs : 0 ≤ s)
    (hbytes : a.bytesRaw = some (some k))
    (hk : 0 < k) :
    (stream ctx a).status = 200 ∧
    bodyBytes (stream ctx a).body = some ((file.drop s.toNat).take k.toNat) ∧
    ((file.drop s.toNat).take k.toNat).length
      = min k.toNat (file.length - s.toNat) := by
  have hss : streamStart a = s := by simp [streamStart, hstart]
  have hnb : streamNb a = k.toNat := by
    simp [streamNb, hbytes, if_neg (not_le.mpr hk)]
  have hchar := stream_local_char ctx a fid rec file hid hrec
    (by simp [hstart]) hsto hfs (by rw [hss]; exact hs)
  rw [hchar]
  refine ⟨rfl, ?_, ?_⟩
  · simp [bodyBytes, gen_local_flatten, hss, hnb]
  · rw [List.length_take, List.length_drop]

/-- The handler's output depends on the `bytes` parameter only through the
computed `nb` value. -/
theorem stream_congr_bytes (ctx : Ctx) (a1 a2 : StreamArgs)
    (hid : a1.idArg = a2.idArg)
    (hstart : a1.startRaw = a2.startRaw)
    (hnb : streamNb a1 = streamNb a2) :
    stream ctx a1 = stream ctx a2 := by
  have hss : streamStart a1 = streamStart a2 := by
    simp [streamStart, hstart]
  unfold stream
  rw [hid, hstart, hss, hnb]

/-! ## Claims about the server side -/

/-- Claim C1: for every local-storage record whose file has size `S`, and
every fetch with `start ≥ 0` and `length > 0`, the `/stream` response body
contains exactly `min(length, max(0, S - start))` bytes, and those bytes
equal the source file's bytes at offsets
`[start, start + min(length, max(0, S - start)))`. -/
theorem C1_local_exact_window (ctx : Ctx) (a : StreamArgs) (fid : String)
    (rec : FileRecord) (file : List Nat) (s k : Int)
    (hid : a.idArg = some fid)
    (hrec : ctx.records fid = some rec)
    (hsto : rec.storage = "local")
    (hfs : ctx.localFs rec.url = some file)
    (hstart : a.startRaw = some (some s))
    (hs : 0 ≤ s)
    (hbytes : a.bytesRaw = some (some k))
    (hk : 0 < k) :
    (stream ctx a).status = 200 ∧
    bodyBytes (stream ctx a).body = some ((file.drop s.toNat).take k.toNat) ∧
    ((file.drop s.toNat).take k.toNat).length
      = min k.toNat (file.length - s.toNat) :=
  stream_local_window ctx a fid rec file s k hid hrec hsto hfs hstart hs
    hbytes hk

/-- Witness for C1 at a concrete environment. -/
theorem C1_local_exact_window_witness :
    (stream ctxLocal argsBig10).status = 200 ∧
    bodyBytes (stream ctxLocal argsBig10).body
      = some ((([7, 8, 9] : List Nat).drop ((0 : Int)).toNat).take ((10 : Int)).toNat) ∧
    ((([7, 8, 9] : List Nat).drop ((0 : Int)).toNat).take ((10 : Int)).toNat).length
      = min ((10 : Int)).toNat (([7, 8, 9] : List Nat).length - ((0 : Int)).toNat) :=
  C1_local_exact_window ctxLocal argsBig10 "fid1" recLocal [7, 8, 9] 0 10
    rfl (by decide) rfl (by decide) rfl (by decide) rfl (by decide)

/-- Claim C5: for a local record whose file exists with size `S`, a fetch
with `start ≥ S` yields HTTP 200 with an empty body, never an error. -/
theorem C5_eof_empty_200 (ctx : Ctx) (a : StreamArgs) (fid : String)
    (rec : FileRecord) (file : List Nat) (s : Int)
    (hid : a.idArg = some fid)
    (hrec : ctx.records fid = some rec)
    (hsto : rec.storage = "local")
    (hfs : ctx.localFs rec.url = some file)
    (hstart : a.startRaw = some (some s))
    (hs : 0 ≤ s)
    (heof : file.length ≤ s.toNat) :
    (stream ctx a).status = 200 ∧ bodyBytes (stream ctx a).body = some [] := by
  have hss : streamStart a = s := by simp [streamStart, hstart]
  have hchar := stream_local_char ctx a fid rec file hid hrec
    (by simp [hstart]) hsto hfs (by rw [hss]; exact hs)
  rw [hchar]
  refine ⟨rfl, ?_⟩
  have hdn : file.drop s.toNat = [] := List.drop_eq_nil_of_le heof
  simp [bodyBytes, gen_local_flatten, hss, hdn]

/-- Witness for C5 at a concrete environment. -/
theorem C5_eof_empty_200_witness :
    (stream ctxLocal argsPastEnd).status = 200 ∧
    bodyBytes (stream ctxLocal argsPastEnd).body = some [] :=
  C5_eof_empty_200 ctxLocal argsPastEnd "fid1" recLocal [7, 8, 9] 5
    rfl (by decide) rfl (by decide) rfl (by decide) (by decide)

/-- Claim C8: both stream generators produce the response body
incrementally, in chunks of at most 64 KiB each, for every window and
every file/upstream body. -/
theorem C8_bounded_chunks :
    (∀ (file : List Nat) (start nb : Nat) (c : List Nat),
        c ∈ gen_local file start nb → c.length ≤ 64 * 1024) ∧
    (∀ (body c : List Nat), c ∈ iterContent body → c.length ≤ 64 * 1024) := by
  constructor
  · intro file start nb c hc
    exact gen_local_chunk_le file start nb c hc
  · intro body c hc
    exact iterContent_chunk_le body c hc

/-- Witness for C8 at concrete chunks of both generators. -/
theorem C8_bounded_chunks_witness :
    ([7, 8, 9] : List Nat).length ≤ 64 * 1024 ∧
    ([5] : List Nat).length ≤ 64 * 1024 :=
  ⟨C8_bounded_chunks.1 [7, 8, 9] 0 10 [7, 8, 9] (by decide),
   C8_bounded_chunks.2 [5] [5] (by decide)⟩

/-- Claim C10: for a stored record with non-local storage whose URL starts
with `file://` or names an existing local path, `/stream` answers 400, and
the response does not depend on the network at all (no outbound request is
consulted). -/
theorem C10_remote_local_url_rejected (ctx : Ctx) (a : StreamArgs)
    (fid : String) (rec : FileRecord)
    (h1 h2 : String → Int → Int → Option HttpResp)
    (hid : a.idArg = some fid)
    (hrec : ctx.records fid = some rec)
    (hsto : ¬ rec.storage = "local")
    (hcond : "file://".data.isPrefixOf rec.url.data = true ∨
      (ctx.localFs rec.url).isSome = true) :
    (stream ctx a).status = 400 ∧
    stream { ctx with http := h1 } a = stream { ctx with http := h2 } a := by
  have hbool : ("file://".data.isPrefixOf rec.url.data
      || (ctx.localFs rec.url).isSome) = true := by
    rcases hcond with h | h <;> simp [h]
  have main : ∀ hf : String → Int → Int → Option HttpResp,
      stream { ctx with http := hf } a =
        (match a.startRaw with
         | some none => { status := 400, body := .msg "invalid start" }
         | _ => { status := 400,
                  body := .msg "local file not available as remote" }) := by
    intro hf
    cases hsr : a.startRaw with
    | none => simp [stream, hid, hrec, hsr, hsto, hbool]
    | some v =>
      cases v with
      | none => simp [stream, hid, hrec, hsr]
      | some s => simp [stream, hid, hrec, hsr, hsto, hbool]
  have hctx : { ctx with http := ctx.http } = ctx := rfl
  constructor
  · have h0 := main ctx.http
    rw [hctx] at h0
    rw [h0]
    cases hsr : a.startRaw with
    | none => rfl
    | some v => cases v with
      | none => rfl
      | some s => rfl
  · rw [main h1, main h2]

/-- Witness for C10 at a concrete `file://` record and two distinct
network environments. -/
theorem C10_remote_local_url_rejected_witness :
    (stream ctxFileUrl argsFid3).status = 400 ∧
    stream { ctxFileUrl with http := fun _ _ _ => none } argsFid3 =
      stream { ctxFileUrl with http := fun _ _ _ => some respFull200 } argsFid3 :=
  C10_remote_local_url_rejected ctxFileUrl argsFid3 "fid3" recFileUrl
    (fun _ _ _ => none) (fun _ _ _ => some respFull200)
    rfl (by decide) (by decide) (by decide)

/-- Counterexample to claim C3 as stated: against a remote origin that
ignores the `Range` header, a fetch of the two-byte window at offset 2
returns the origin's whole five-byte body, so the fetch returns more than
`length` bytes, and not beginning at `start`. -/
theorem C3_counterexample :
    bodyBytes (stream ctxRemote argsWin22).body = some [1, 2, 3, 4, 5] ∧
    streamNb argsWin22 = 2 ∧
    ¬ ([1, 2, 3, 4, 5] : List Nat).length ≤ 2 := by decide

/-- Claim C3 amended: for local descriptors the fetch returns at most
`length` bytes beginning at `start`, and returns fewer than requested only
when the file is exhausted at that offset; for remote descriptors the
handler forwards exactly the origin's response body, so the window
contract holds only if the origin honors the range. -/
theorem C3_window_contract :
    (∀ (ctx : Ctx) (a : StreamArgs) (fid : String) (rec : FileRecord)
        (file : List Nat) (s k : Int),
      a.idArg = some fid →
      ctx.records fid = some rec →
      rec.storage = "local" →
      ctx.localFs rec.url = some file →
      a.startRaw = some (some s) →
      0 ≤ s →
      a.bytesRaw = some (some k) →
      0 < k →
      bodyBytes (stream ctx a).body = some ((file.drop s.toNat).take k.toNat) ∧
      ((file.drop s.toNat).take k.toNat).length ≤ k.toNat ∧
      (((file.drop s.toNat).take k.toNat).length < k.toNat →
        file.length ≤ s.toNat + ((file.drop s.toNat).take k.toNat).length)) ∧
    (∀ (ctx : Ctx) (a : StreamArgs) (fid : String) (rec : FileRecord)
        (r : HttpResp),
      a.idArg = some fid →
      ctx.records fid = some rec →
      a.startRaw ≠ some none →
      ¬ rec.storage = "local" →
      "file://".data.isPrefixOf rec.url.data = false →
      ctx.localFs rec.url = none →
      ctx.http rec.url (streamStart a) (streamEnd a) = some r →
      r.status = 200 ∨ r.status = 206 →
      bodyBytes (stream ctx a).body = some r.body) := by
  constructor
  · intro ctx a fid rec file s k hid hrec hsto hfs hstart hs hbytes hk
    obtain ⟨-, hbody, hlen⟩ :=
      stream_local_window ctx a fid rec file s k hid hrec hsto hfs hstart hs
        hbytes hk
    refine ⟨hbody, ?_, ?_⟩
    · rw [hlen]; omega
    · intro hlt
      rw [hlen] at hlt ⊢
      have hd : (file.drop s.toNat).length = file.length - s.toNat :=
        List.length_drop ..
      omega
  · intro ctx a fid rec r hid hrec hstart hsto hnf hnl hh h2xx
    rw [stream_remote_pass ctx a fid rec r hid hrec hstart hsto hnf hnl hh h2xx]
    simp [bodyBytes, iterContent_flatten]

/-- Witness for the amended C3 at concrete local and remote environments. -/
theorem C3_window_contract_witness :
    (bodyBytes (stream ctxLocal argsBig10).body
        = some ((([7, 8, 9] : List Nat).drop ((0 : Int)).toNat).take ((10 : Int)).toNat) ∧
      ((([7, 8, 9] : List Nat).drop ((0 : Int)).toNat).take ((10 : Int)).toNat).length
        ≤ ((10 : Int)).toNat ∧
      (((([7, 8, 9] : List Nat).drop ((0 : Int)).toNat).take ((10 : Int)).toNat).length
          < ((10 : Int)).toNat →
        ([7, 8, 9] : List Nat).length ≤ ((0 : Int)).toNat +
          ((([7, 8, 9] : List Nat).drop ((0 : Int)).toNat).take ((10 : Int)).toNat).length)) ∧
    bodyBytes (stream ctxRemote argsWin22).body = some respFull200.body :=
  ⟨C3_window_contract.1 ctxLocal argsBig10 "fid1" recLocal [7, 8, 9] 0 10
      rfl (by decide) rfl (by decide) rfl (by decide) rfl (by decide),
   C3_window_contract.2 ctxRemote argsWin22 "fid2" recRemote respFull200
      rfl (by decide) (by decide) (by decide) (by decide) (by decide)
      (by decide) (Or.inl rfl)⟩

/-- Counterexample to claim C4 as stated: the origin ignores the `Range`
header and answers HTTP 200 with the whole body (no `Content-Range`,
length 5 instead of the requested 2); the handler does not fail with an
upstream error but returns status 200 with the origin's body bytes. -/
theorem C4_counterexample :
    respFull200.status = 200 ∧
    respFull200.contentRange = none ∧
    (stream ctxRemote argsWin22).status = 200 ∧
    bodyBytes (stream ctxRemote argsWin22).body = some respFull200.body := by
  decide

/-- Claim C4 amended: the handler performs no range-honoring detection.
When the origin answers HTTP 200 (range ignored), the handler returns
status 200 and streams the origin's body bytes to the caller unchanged;
only statuses other than 200 and 206 are propagated as upstream errors
(origin status and body passed through). -/
theorem C4_no_range_detection :
    (∀ (ctx : Ctx) (a : StreamArgs) (fid : String) (rec : FileRecord)
        (r : HttpResp),
      a.idArg = some fid →
      ctx.records fid = some rec →
      a.startRaw ≠ some none →
      ¬ rec.storage = "local" →
      "file://".data.isPrefixOf rec.url.data = false →
      ctx.localFs rec.url = none →
      ctx.http rec.url (streamStart a) (streamEnd a) = some r →
      r.status = 200 →
      (stream ctx a).status = 200 ∧
      bodyBytes (stream ctx a).body = some r.body) ∧
    (∀ (ctx : Ctx) (a : StreamArgs) (fid : String) (rec : FileRecord)
        (r : HttpResp),
      a.idArg = some fid →
      ctx.records fid = some rec →
      a.startRaw ≠ some none →
      ¬ rec.storage = "local" →
      "file://".data.isPrefixOf rec.url.data = false →
      ctx.localFs rec.url = none →
      ctx.http rec.url (streamStart a) (streamEnd a) = some r →
      r.status ≠ 200 →
      r.status ≠ 206 →
      (stream ctx a).status = r.status ∧ (stream ctx a).body = .raw r.body) := by
  constructor
  · intro ctx a fid rec r hid hrec hstart hsto hnf hnl hh h200
    rw [stream_remote_pass ctx a fid rec r hid hrec hstart hsto hnf hnl hh
      (Or.inl h200)]
    simp [bodyBytes, iterContent_flatten]
  · intro ctx a fid rec r hid hrec hstart hsto hnf hnl hh hne2 hne6
    rw [stream_remote_err ctx a fid rec r hid hrec hstart hsto hnf hnl hh
      hne2 hne6]
    exact ⟨rfl, rfl⟩

/-- Witness for the amended C4 at a range-ignoring origin and at a
404-answering origin. -/
theorem C4_no_range_detection_witness :
    ((stream ctxRemote argsWin22).status = 200 ∧
      bodyBytes (stream ctxRemote argsWin22).body = some respFull200.body) ∧
    ((stream ctxRemoteErr argsFid4).status = resp404.status ∧
      (stream ctxRemoteErr argsFid4).body = .raw resp404.body) :=
  ⟨C4_no_range_detection.1 ctxRemote argsWin22 "fid2" recRemote respFull200
      rfl (by decide) (by decide) (by decide) (by decide) (by decide)
      (by decide) rfl,
   C4_no_range_detection.2 ctxRemoteErr argsFid4 "fid4" recRemoteY resp404
      rfl (by decide) (by decide) (by decide) (by decide) (by decide)
      (by decide) (by decide) (by decide)⟩

/-- Counterexample to claim C6 as stated: a local fetch of ten requested
bytes from a three-byte file returns three bytes but declares
`Content-Range: bytes 0-9/*` (computed from the requested length), not
`bytes 0-2/*` (which the claim's formula with `returnedLength = 3`
demands). -/
theorem C6_counterexample :
    bodyBytes (stream ctxLocal argsBig10).body = some [7, 8, 9] ∧
    (stream ctxLocal argsBig10).contentRange = some "bytes 0-9/*" ∧
    ("bytes 0-9/*" : String) ≠ "bytes 0-2/*" := by decide

/-- Claim C6 amended: the `Content-Range` header is computed from the
requested length, `bytes {start}-{start+nb-1}/*` with `nb` the requested
byte count, regardless of how many bytes the body actually contains; on
the remote path the origin's own `Content-Range` is forwarded when
present, with the same requested-length formula as fallback. -/
theorem C6_content_range_requested :
    (∀ (ctx : Ctx) (a : StreamArgs) (fid : String) (rec : FileRecord)
        (file : List Nat),
      a.idArg = some fid →
      ctx.records fid = some rec →
      a.startRaw ≠ some none →
      rec.storage = "local" →
      ctx.localFs rec.url = some file →
      0 ≤ streamStart a →
      (stream ctx a).contentRange
        = some (contentRangeStr (streamStart a) (streamEnd a))) ∧
    (∀ (ctx : Ctx) (a : StreamArgs) (fid : String) (rec : FileRecord)
        (r : HttpResp),
      a.idArg = some fid →
      ctx.records fid = some rec →
      a.startRaw ≠ some none →
      ¬ rec.storage = "local" →
      "file://".data.isPrefixOf rec.url.data = false →
      ctx.localFs rec.url = none →
      ctx.http rec.url (streamStart a) (streamEnd a) = some r →
      r.status = 200 ∨ r.status = 206 →
      (stream ctx a).contentRange
        = some (r.contentRange.getD
            (contentRangeStr (streamStart a) (streamEnd a)))) := by
  constructor
  · intro ctx a fid rec file hid hrec hstart hsto hfs hs
    rw [stream_local_char ctx a fid rec file hid hrec hstart hsto hfs hs]
  · intro ctx a fid rec r hid hrec hstart hsto hnf hnl hh h2xx
    rw [stream_remote_pass ctx a fid rec r hid hrec hstart hsto hnf hnl hh h2xx]

/-- Witness for the amended C6 at concrete local and remote requests. -/
theorem C6_content_range_requested_witness :
    (stream ctxLocal argsBig10).contentRange
      = some (contentRangeStr (streamStart argsBig10) (streamEnd argsBig10)) ∧
    (stream ctxRemote argsWin22).contentRange
      = some (respFull200.contentRange.getD
          (contentRangeStr (streamStart argsWin22) (streamEnd argsWin22))) :=
  ⟨C6_content_range_requested.1 ctxLocal argsBig10 "fid1" recLocal [7, 8, 9]
      rfl (by decide) (by decide) rfl (by decide) (by decide),
   C6_content_range_requested.2 ctxRemote argsWin22 "fid2" recRemote respFull200
      rfl (by decide) (by decide) (by decide) (by decide) (by decide)
      (by decide) (Or.inl rfl)⟩

/-- Counterexample to claim C7 as stated: a request whose `bytes`
parameter fails integer parsing is answered with status 200 (the value is
silently replaced by the default), and a request whose `start` is the
negative integer `-1` is also answered with status 200 — neither yields
the 400 the claim requires. -/
theorem C7_counterexample :
    (stream ctxLocal argsBadBytes).status = 200 ∧
    (stream ctxLocal argsNegStart).status = 200 := by decide

/-- Claim C7 amended: only a `start` parameter that fails integer parsing
yields 400 (a negative integer `start` is accepted); a `bytes` parameter
that fails to parse, or parses to a non-positive integer, is silently
replaced by the default of 1 MiB and the request proceeds exactly as if
the parameter were absent. -/
theorem C7_param_validation :
    (∀ (ctx : Ctx) (a : StreamArgs) (fid : String) (rec : FileRecord),
      a.idArg = some fid →
      ctx.records fid = some rec →
      a.startRaw = some none →
      (stream ctx a).status = 400) ∧
    (∀ (ctx : Ctx) (a : StreamArgs),
      stream ctx { a with bytesRaw := some none }
        = stream ctx { a with bytesRaw := none }) ∧
    (∀ (ctx : Ctx) (a : StreamArgs) (k : Int), k ≤ 0 →
      stream ctx { a with bytesRaw := some (some k) }
        = stream ctx { a with bytesRaw := none }) := by
  refine ⟨?_, ?_, ?_⟩
  · intro ctx a fid rec hid hrec hstart
    simp [stream, hid, hrec, hstart]
  · intro ctx a
    exact stream_congr_bytes ctx _ _ rfl rfl rfl
  · intro ctx a k hk
    exact stream_congr_bytes ctx _ _ rfl rfl
      (by simp [streamNb, if_pos hk])

/-- Counterexample to claim C2 as stated: on a source made of one short
line, one enormous line and a final terminator, the deployed reader
(`BYTES = 1048576`, `OVERLAP = 1024`) terminates with 1047556 characters
in its buffer, while the source's content up to the last confirmed line
boundary is the whole 1048577-character source (it ends with a
terminator).  The first fetch confirms only 3 characters, so the second
fetch starts at `max(0, 3 - 1024) = 0` yet still discards `OVERLAP`
decoded characters, silently losing offsets 3..1023. -/
theorem C2_counterexample :
    (run DEFAULT_BYTES srcEx 2 initCursor).done = true ∧
    (run DEFAULT_BYTES srcEx 2 initCursor).buffer.length = 1047556 ∧
    (keepPart srcEx).length = 1048577 ∧
    (run DEFAULT_BYTES srcEx 2 initCursor).buffer ≠ keepPart srcEx := by
  have hlen : cursor2.buffer.length = 1047556 := by
    show ((['a', 'b', nlChar] : List Char)
      ++ (List.replicate 1047552 'x' ++ [nlChar])).length = 1047556
    rw [List.length_append, List.length_append, List.length_replicate]
    rfl
  refine ⟨?_, ?_, ?_, ?_⟩
  · rw [srcEx_run2]
    rfl
  · rw [srcEx_run2]
    exact hlen
  · rw [srcEx_keepPart, srcEx_length]
  · rw [srcEx_run2, srcEx_keepPart]
    intro h
    have hc := congrArg List.length h
    rw [hlen, srcEx_length] at hc
    exact absurd hc (by decide)

/-- Claim C2 amended: for every run of the reader loop over single-byte
text, provided the first fetch either exhausts the source or confirms at
least `OVERLAP` characters (so the fixed `OVERLAP`-character discard of
later windows lines up with the consumed prefix), the concatenation of all
appended segments is exactly the source's first `position` characters; on
termination the buffer equals the source up to its last line terminator,
or the whole source when the final window holds no terminator (final
flush); and every appended segment ends with a line terminator or contains
none at all (the whole-window flush policy for a single long line). -/
theorem C2_line_safety (B : Nat) (src : List Char) (fuel i : Nat)
    (hB : 0 < B)
    (hA : src.length < B ∨ OVERLAP ≤ (keepPart (src.take B)).length) :
    (run B src fuel initCursor).buffer
      = src.take (run B src fuel initCursor).pos ∧
    (run B src fuel initCursor).pos ≤ src.length ∧
    ((run B src fuel initCursor).done = true →
      (run B src fuel initCursor).buffer = keepPart src ∨
      (run B src fuel initCursor).buffer = src) ∧
    ((fetchChunk B src (run B src i initCursor)).buffer.drop
        (run B src i initCursor).buffer.length = [] ∨
      ((fetchChunk B src (run B src i initCursor)).buffer.drop
        (run B src i initCursor).buffer.length).getLast? = some nlChar ∨
      nlChar ∉ (fetchChunk B src (run B src i initCursor)).buffer.drop
        (run B src i initCursor).buffer.length) := by
  have hA' : AlignedSrc B src := hA
  have h := run_Inv2 B src hB hA' fuel initCursor (initCursor_Inv2 src)
  exact ⟨h.1.1, h.1.2.1, h.2, fetchChunk_seg B src _⟩

/-- Witness for the amended C2 on a two-character source. -/
theorem C2_line_safety_witness :
    (run DEFAULT_BYTES ['a', nlChar] 2 initCursor).buffer
      = (['a', nlChar] : List Char).take
          (run DEFAULT_BYTES ['a', nlChar] 2 initCursor).pos ∧
    (run DEFAULT_BYTES ['a', nlChar] 2 initCursor).pos
      ≤ (['a', nlChar] : List Char).length ∧
    ((run DEFAULT_BYTES ['a', nlChar] 2 initCursor).done = true →
      (run DEFAULT_BYTES ['a', nlChar] 2 initCursor).buffer
          = keepPart ['a', nlChar] ∨
      (run DEFAULT_BYTES ['a', nlChar] 2 initCursor).buffer = ['a', nlChar]) ∧
    ((fetchChunk DEFAULT_BYTES ['a', nlChar]
        (run DEFAULT_BYTES ['a', nlChar] 1 initCursor)).buffer.drop
        (run DEFAULT_BYTES ['a', nlChar] 1 initCursor).buffer.length = [] ∨
      ((fetchChunk DEFAULT_BYTES ['a', nlChar]
        (run DEFAULT_BYTES ['a', nlChar] 1 initCursor)).buffer.drop
        (run DEFAULT_BYTES ['a', nlChar] 1 initCursor).buffer.length).getLast?
          = some nlChar ∨
      nlChar ∉ (fetchChunk DEFAULT_BYTES ['a', nlChar]
        (run DEFAULT_BYTES ['a', nlChar] 1 initCursor)).buffer.drop
        (run DEFAULT_BYTES ['a', nlChar] 1 initCursor).buffer.length) :=
  C2_line_safety DEFAULT_BYTES ['a', nlChar] 2 1 (by decide)
    (Or.inl (by decide))

/-- Claim C9: over any interleaving of scroll triggers and fetch
completions, at most one fetch is in flight per cursor at any time, and a
trigger that arrives while a fetch is in flight or after the cursor is
terminal issues no request and changes no state. -/
theorem C9_single_flight :
    (∀ (B : Nat) (src : List Char) (evs : List JsEvent),
      (jsRun B src initSys evs).inflight ≤ 1) ∧
    (∀ (B : Nat) (src : List Char) (s : SysState),
      s.cur.done = true ∨ s.cur.loading = true →
      jsStep B src s .scroll = s) := by
  constructor
  · intro B src evs
    have key : ∀ (es : List JsEvent) (s : SysState),
        s.inflight = (if s.cur.loading = true then 1 else 0) →
        (jsRun B src s es).inflight
          = (if (jsRun B src s es).cur.loading = true then 1 else 0) := by
      intro es
      induction es with
      | nil => intro s h; exact h
      | cons e es ih =>
        intro s h
        apply ih
        cases e with
        | scroll =>
          by_cases hg : (s.cur.done || s.cur.loading) = true
          · simp [jsStep, hg, h]
          · have hff : (s.cur.done || s.cur.loading) = false := by
              simpa using hg
            obtain ⟨h1, h2⟩ := Bool.or_eq_false_iff.mp hff
            simp [jsStep, h1, h2, h]
        | complete =>
          by_cases hl : s.cur.loading = true
          · simp [jsStep, hl, fetchBody_loading, h]
          · simp [jsStep, hl, h]
    have h0 := key evs initSys rfl
    rw [h0]
    by_cases hl : (jsRun B src initSys evs).cur.loading = true <;> simp [hl]
  · intro B src s h
    rcases h with h | h <;> simp [jsStep, h]

/-- Witness for C9: a double trigger issues one request, and a trigger on
a terminal cursor is the identity. -/
theorem C9_single_flight_witness :
    (jsRun 8 ['a'] initSys [.scroll, .scroll, .complete]).inflight ≤ 1 ∧
    jsStep 8 ['a']
      { cur := { pos := 0, done := true, loading := false, buffer := [] },
        inflight := 0 } .scroll
      = { cur := { pos := 0, done := true, loading := false, buffer := [] },
          inflight := 0 } :=
  ⟨C9_single_flight.1 8 ['a'] [.scroll, .scroll, .complete],
   C9_single_flight.2 8 ['a']
     { cur := { pos := 0, done := true, loading := false, buffer := [] },
       inflight := 0 } (Or.inl rfl)⟩

/-- Witness for the amended C7 at concrete requests. -/
theorem C7_param_validation_witness :
    (stream ctxLocal argsBadStart).status = 400 ∧
    stream ctxLocal { argsBig10 with bytesRaw := some none }
      = stream ctxLocal { argsBig10 with bytesRaw := none } ∧
    stream ctxLocal { argsBig10 with bytesRaw := some (some (-3)) }
      = stream ctxLocal { argsBig10 with bytesRaw := none } :=
  ⟨C7_param_validation.1 ctxLocal argsBadStart "fid1" recLocal rfl
      (by decide) rfl,
   C7_param_validation.2.1 ctxLocal argsBig10,
   C7_param_validation.2.2 ctxLocal argsBig10 (-3) (by decide)⟩

end WebApp
